import Mathlib

/-!
# Verification of the s3-overlay-server gateway

Shallow embedding of the repository's caching decorator
(`internal/cloud-storage/cached_storage.go`), domain service
(`internal/cloud-storage/service.go`), endpoint layer and HTTP transport
(`internal/cloud-storage/transport.go`, endpoint file), together with
proofs of the specification's claims about them.

Go byte strings are modelled as `List Char`; machine integers as `Int`/`Nat`;
fallible operations return `Option`/`Except`-style results; a Go runtime
panic (slice out of range, nil-pointer dereference) is an explicit
constructor of the result type.
-/

namespace S3Overlay

abbrev Chars := List Char

/-! ## Decimal and hexadecimal digit machinery

Used to model `fmt.Sscanf` with `%d` verbs, `strconv.ParseInt`,
`strconv.Itoa`, and the hexadecimal chunk sizes of the streaming upload
framing. Printing is via `Nat.digits`, so the round-trip lemmas follow from
`Nat.ofDigits_digits`. -/

def digitVal (c : Char) : Nat := c.toNat - '0'.toNat

def decDigitChar : Nat → Char
  | 0 => '0' | 1 => '1' | 2 => '2' | 3 => '3' | 4 => '4'
  | 5 => '5' | 6 => '6' | 7 => '7' | 8 => '8' | _ => '9'

/-- Little-endian base-`b` digits of `n`, structurally recursive on `fuel`
so that it evaluates inside the kernel (`Nat.digits` itself is defined by
well-founded recursion); `fuel = n` always suffices. -/
def toDigitsRevFuel (b : Nat) : Nat → Nat → List Nat
  | 0, _ => []
  | fuel + 1, n => if n = 0 then [] else n % b :: toDigitsRevFuel b fuel (n / b)

/-- Little-endian base-`b` digits of `n`; agrees with `Nat.digits b n`. -/
def toDigitsRev (b n : Nat) : List Nat := toDigitsRevFuel b n n

/-- Decimal rendering of a natural number, most significant digit first. -/
def natToDecChars (n : Nat) : Chars :=
  if n = 0 then ['0'] else ((toDigitsRev 10 n).reverse.map decDigitChar)

def natToDecStr (n : Nat) : String := ⟨natToDecChars n⟩

/-- Decimal rendering of an `int` as Go's `strconv.Itoa` produces it. -/
def intToDecStr (i : Int) : String :=
  if i < 0 then "-" ++ natToDecStr i.natAbs else natToDecStr i.natAbs

def hexDigitChar : Nat → Char
  | 0 => '0' | 1 => '1' | 2 => '2' | 3 => '3' | 4 => '4'
  | 5 => '5' | 6 => '6' | 7 => '7' | 8 => '8' | 9 => '9'
  | 10 => 'a' | 11 => 'b' | 12 => 'c' | 13 => 'd' | 14 => 'e' | _ => 'f'

/-- Lower-case hexadecimal rendering of a natural number, most significant
digit first (the form chunk sizes take on the wire). -/
def natToHexChars (n : Nat) : Chars :=
  if n = 0 then ['0'] else ((toDigitsRev 16 n).reverse.map hexDigitChar)

def isHexChar (c : Char) : Bool :=
  c.isDigit || ('a' ≤ c && c ≤ 'f') || ('A' ≤ c && c ≤ 'F')

def hexVal (c : Char) : Nat :=
  if c.isDigit then digitVal c
  else if 'a' ≤ c && c ≤ 'f' then c.toNat - 'a'.toNat + 10
  else c.toNat - 'A'.toNat + 10

/-- Maximal run of decimal digits at the head of the input, returned as
digit values most significant first, together with the rest of the input. -/
def decRun : Chars → List Nat × Chars
  | [] => ([], [])
  | c :: cs =>
    if c.isDigit then (digitVal c :: (decRun cs).1, (decRun cs).2)
    else ([], c :: cs)

/-- Maximal run of hexadecimal digits at the head of the input. -/
def hexRun : Chars → List Nat × Chars
  | [] => ([], [])
  | c :: cs =>
    if isHexChar c then (hexVal c :: (hexRun cs).1, (hexRun cs).2)
    else ([], c :: cs)

/-- Value of a most-significant-first digit list in base `b`. -/
def digitsVal (b : Nat) (ds : List Nat) : Nat := Nat.ofDigits b ds.reverse

/-! ## The cache model

`cached_storage.go` uses one process-wide ristretto cache whose values are
either raw object bytes (`[]byte`) or head metadata
(`*s3.HeadObjectOutput`). The cache is modelled as an association list,
`Set` prepends (so lookups see the most recent write), `Del` removes the
key, `Get` finds the most recent entry. -/

/-- A civil datetime, standing in for Go's `time.Time` value carried in
`HeadObjectOutput.LastModified` (weekday 0 = Sunday, as in Go). -/
structure DateTime where
  year : Nat
  month : Nat
  day : Nat
  hour : Nat
  minute : Nat
  second : Nat
  weekday : Nat
deriving DecidableEq, Repr

/-- The fields of `s3.HeadObjectOutput` the gateway reads. `ContentType`,
`ETag` and `LastModified` are pointers in the SDK type, hence `Option`;
`ContentLength` is a plain `int64`. -/
structure HeadObjectOutput where
  contentLength : Int
  contentType : Option String
  eTag : Option String
  lastModified : Option DateTime
deriving DecidableEq, Repr

inductive CacheValue
  | bytes (data : Chars)
  | head (md : HeadObjectOutput)
deriving DecidableEq, Repr

abbrev Cache := List (String × CacheValue)

def cacheSet (c : Cache) (k : String) (v : CacheValue) : Cache := (k, v) :: c

def cacheGet (c : Cache) (k : String) : Option CacheValue :=
  (c.find? (fun p => p.1 == k)).map (·.2)

def cacheDel (c : Cache) (k : String) : Cache := c.filter (fun p => p.1 != k)

/-- Cache key for object bodies: `fmt.Sprintf("%s/%s", bucket, key)`. -/
def bodyKey (bucketName objectKey : String) : String :=
  bucketName ++ "/" ++ objectKey

/-- Cache key for head metadata: `fmt.Sprintf("head/%s/%s", bucket, key)`. -/
def headKey (bucketName objectKey : String) : String :=
  "head/" ++ bucketName ++ "/" ++ objectKey

/-! ## Go errors -/

/-- A Go `error` value as the gateway discriminates it: either one that
`errors.As` recognises as a `smithy.APIError` (carrying a provider error
code and message), or any other error (only its text is available). -/
inductive GoError
  | api (code message : String)
  | plain (message : String)
deriving DecidableEq, Repr

/-! ## Range-header parsing (`cached_storage.go` lines 72-88)

`parseContentRange` runs `fmt.Sscanf(contentRange, "bytes=%d-%d", ...)`,
`parceContentRangeOpen` runs `fmt.Sscanf(contentRange, "bytes=%d-", ...)`
(the source's spelling is kept). `Sscanf` matches format literals exactly,
skips blanks before a `%d` verb, accepts an optional sign and then requires
at least one decimal digit, and ignores any input left after the format is
exhausted. -/

/-- Match a format literal against the input; on success return the rest. -/
def matchLit : Chars → Chars → Option Chars
  | [], s => some s
  | _ :: _, [] => none
  | c :: cs, d :: ds => if c = d then matchLit cs ds else none

def skipBlanks (s : Chars) : Chars := s.dropWhile (fun c => c == ' ' || c == '\t')

/-- Scan one `%d` operand: skip blanks, optional sign, then a nonempty
digit run. Fails (as `Sscanf` errors) when no digit follows. -/
def scanGoInt (s : Chars) : Option (Int × Chars) :=
  match skipBlanks s with
  | [] => none
  | c :: rest =>
    if c == '-' then
      if ((decRun rest).1).isEmpty then none
      else some (-(digitsVal 10 (decRun rest).1 : Int), (decRun rest).2)
    else if c == '+' then
      if ((decRun rest).1).isEmpty then none
      else some ((digitsVal 10 (decRun rest).1 : Int), (decRun rest).2)
    else
      if ((decRun (c :: rest)).1).isEmpty then none
      else some ((digitsVal 10 (decRun (c :: rest)).1 : Int), (decRun (c :: rest)).2)

/-- `parseContentRange`: scan `"bytes=%d-%d"`; both integers on success. -/
def parseContentRange (contentRange : String) : Option (Int × Int) :=
  (matchLit "bytes=".data contentRange.data).bind fun s1 =>
  (scanGoInt s1).bind fun (start, s2) =>
  (matchLit ['-'] s2).bind fun s3 =>
  (scanGoInt s3).map fun (e, _) => (start, e)

/-- `parceContentRangeOpen`: scan `"bytes=%d-"`; the integer on success. -/
def parceContentRangeOpen (contentRange : String) : Option Int :=
  (matchLit "bytes=".data contentRange.data).bind fun s1 =>
  (scanGoInt s1).bind fun (start, s2) =>
  (matchLit ['-'] s2).map fun _ => start

/-! ## Serving a GetObject from the cache (`cached_storage.go` lines 90-113)

Two views of the slicing in lines 104-108 are given. `goSliceTo` below is
the length-bounded view: it returns `some` exactly on
`0 ≤ start ≤ end ≤ len(ret)`, the domain on which Go's result is the
object's own bytes, and `none` outside it. Go itself bounds
`ret[start:end]` by the slice's capacity, not its length, and the cached
`ret` comes from `io.ReadAll`, whose buffer has capacity at least 512; the
capacity-faithful semantics (where an `end` between `len` and `cap`
returns out-of-length buffer bytes rather than panicking) is
`goSliceToCap`/`serveCachedRangeCap` below. `goSliceFrom` is faithful
outright: `ret[start:]` has high bound `len(ret)`, so it panics exactly
when `0 ≤ start ≤ len(ret)` fails. -/

/-- Go's `ret[start:end]`, length-bounded view: `some` exactly on
`0 ≤ start ≤ end ≤ len(ret)` (where Go returns these same bytes); the
capacity-faithful version is `goSliceToCap`. -/
def goSliceTo (xs : Chars) (start e : Int) : Option Chars :=
  if 0 ≤ start ∧ start ≤ e ∧ e ≤ xs.length then
    some ((xs.take e.toNat).drop start.toNat)
  else none

/-- Go's `ret[start:]`: `none` models the runtime panic (the high bound
defaults to `len(ret)`, so the bounds check is against the length). -/
def goSliceFrom (xs : Chars) (start : Int) : Option Chars :=
  if 0 ≤ start ∧ start ≤ xs.length then some (xs.drop start.toNat) else none

/-- Result of the cache-hit branch of `GetObject`. -/
inductive GetResult
  | ok (data : Chars)
  | err
  | panic
deriving DecidableEq, Repr

/-- The cache-hit branch of `GetObject` on cached bytes `ret`: an empty
range string returns the bytes whole; otherwise the closed form is tried
first, falling back to the open form; a parse failure of both is returned
as an error; on success, Go's `end` variable still holds `0` whenever only
the open form matched, and the code tests `end == 0` to choose between
`ret[start:]` and `ret[start:end]`. -/
def serveCachedRange (ret : Chars) (contentRange : String) : GetResult :=
  if contentRange = "" then .ok ret
  else
    match parseContentRange contentRange with
    | some (start, e) =>
      if e = 0 then
        match goSliceFrom ret start with
        | some r => .ok r
        | none => .panic
      else
        match goSliceTo ret start e with
        | some r => .ok r
        | none => .panic
    | none =>
      match parceContentRangeOpen contentRange with
      | some start =>
        match goSliceFrom ret start with
        | some r => .ok r
        | none => .panic
      | none => .err

/-! ## Capacity-aware slicing (`cached_storage.go` lines 104-108)

Go bounds a slice expression `ret[start:end]` by the slice's capacity:
it panics only when `0 ≤ start ≤ end ≤ cap(ret)` fails, and when
`len(ret) < end ≤ cap(ret)` it returns bytes of the underlying array past
the slice's length. The cached value always comes from `io.ReadAll`,
which allocates a buffer of capacity at least 512, so for a small object
the underlying array extends well past `len(ret)` with bytes that are not
the object's data. The cached slice is modelled as its object bytes
`data` (`len = data.length`) plus the underlying array's spare region
`spare` (`cap = data.length + spare.length`). -/

/-- Go's `ret[start:end]` under capacity semantics: `none` (panic) exactly
when `0 ≤ start ≤ end ≤ cap` fails; the returned bytes come from the
underlying array, past `len(ret)` when `end` exceeds it. -/
def goSliceToCap (data spare : Chars) (start e : Int) : Option Chars :=
  if 0 ≤ start ∧ start ≤ e ∧ e ≤ (data ++ spare).length then
    some (((data ++ spare).take e.toNat).drop start.toNat)
  else none

/-- Go's `ret[start:]` under capacity semantics: the high bound defaults
to `len(ret)`, so it panics exactly when `0 ≤ start ≤ len(ret)` fails,
and the result never reaches into the spare region. -/
def goSliceFromCap (data _spare : Chars) (start : Int) : Option Chars :=
  if 0 ≤ start ∧ start ≤ data.length then some (data.drop start.toNat) else none

/-- The cache-hit branch of `GetObject` (same source logic as
`serveCachedRange`) with capacity-aware slicing over a cached value whose
object bytes are `data` and whose underlying buffer continues with
`spare`. -/
def serveCachedRangeCap (data spare : Chars) (contentRange : String) : GetResult :=
  if contentRange = "" then .ok data
  else
    match parseContentRange contentRange with
    | some (start, e) =>
      if e = 0 then
        match goSliceFromCap data spare start with
        | some r => .ok r
        | none => .panic
      else
        match goSliceToCap data spare start e with
        | some r => .ok r
        | none => .panic
    | none =>
      match parceContentRangeOpen contentRange with
      | some start =>
        match goSliceFromCap data spare start with
        | some r => .ok r
        | none => .panic
      | none => .err

/-! ## The caching decorator (`cached_storage.go`)

Each operation is a function of the current cache state; background work
(the detached `go func` bodies) is returned as data, not performed. -/

/-- Outcome of `cachedCloudStorage.PutObject`. -/
structure PutOutcome where
  result : Option GoError
  cache : Cache
  backgroundWrites : List (String × String × Chars)
deriving Repr

/-- `cachedCloudStorage.PutObject`: read the whole body (`io.ReadAll`);
on read failure return the error with the cache untouched; otherwise store
the bytes under `bodyKey` (cost 1), schedule the backing write as a
detached background task, and return success immediately. -/
def cachedPutObject (c : Cache) (bucketName objectKey : String)
    (body : Except GoError Chars) : PutOutcome :=
  match body with
  | .error e => { result := some e, cache := c, backgroundWrites := [] }
  | .ok value =>
    { result := none
      cache := cacheSet c (bodyKey bucketName objectKey) (.bytes value)
      backgroundWrites := [(bucketName, objectKey, value)] }

/-- Outcome of `cachedCloudStorage.GetObject` before any base-storage
call: either served from the cache, or a cache miss that falls through to
the base storage. A found entry of the wrong dynamic type (the failed
`value.([]byte)` assertion) also falls through. -/
inductive GetOutcome
  | served (r : GetResult)
  | miss
deriving DecidableEq, Repr

def cachedGetObject (c : Cache) (bucketName objectKey : String)
    (contentRange : String) : GetOutcome :=
  match cacheGet c (bodyKey bucketName objectKey) with
  | some (.bytes ret) => .served (serveCachedRange ret contentRange)
  | some (.head _) => .miss
  | none => .miss

/-- Outcome of `cachedCloudStorage.HeadObject` before any base-storage
call: a found entry of type `*s3.HeadObjectOutput` is returned directly;
anything else falls through to the base storage. -/
inductive HeadOutcome
  | hit (md : HeadObjectOutput)
  | miss
deriving DecidableEq, Repr

def cachedHeadObject (c : Cache) (bucketName objectKey : String) : HeadOutcome :=
  match cacheGet c (headKey bucketName objectKey) with
  | some (.head md) => .hit md
  | _ => .miss

/-- `cachedCloudStorage.DeleteObject`: call the base storage; on success
delete the body cache entry; return the base result either way. -/
def cachedDeleteObject (baseResult : Option GoError) (c : Cache)
    (bucketName objectKey : String) : Option GoError × Cache :=
  match baseResult with
  | none => (none, cacheDel c (bodyKey bucketName objectKey))
  | some e => (some e, c)

/-! ## The domain service (`service.go`)

The three no-op operations return `nil` without touching the adapter; the
adapter calls an operation would make are returned as an explicit trace. -/

inductive AdapterCall
  | listBuckets | listObjects | headObject | getObject | putObject | deleteObject
deriving DecidableEq, Repr

/-- `cloudStorageService.CreateBucket`: `return nil`. -/
def serviceCreateBucket (_bucketName : String) : Option GoError × List AdapterCall :=
  (none, [])

/-- `cloudStorageService.DeleteBucket`: `return nil`. -/
def serviceDeleteBucket (_bucketName : String) : Option GoError × List AdapterCall :=
  (none, [])

/-- `cloudStorageService.DeleteObject`: `return nil`. -/
def serviceDeleteObject (_bucketName _objectKey : String) :
    Option GoError × List AdapterCall :=
  (none, [])

/-! ## Response encoding (`transport.go` lines 160-246)

Among the endpoint layer's response types only `APIErrorResponse`
implements `StatusCoder`, so `encodeResponse` writes an explicit status
only for it; for every other response no status is written and Go's
`net/http` default of 200 applies. -/

structure APIErrorResponse where
  code : String
  message : String
deriving DecidableEq, Repr

/-- `APIErrorResponse.StatusCode` (`transport.go` lines 172-185): the
switch on the error code. -/
def APIErrorResponse.statusCode (r : APIErrorResponse) : Nat :=
  if r.code = "NotFound" then 404
  else if r.code = "NoSuchKey" then 404
  else if r.code = "NoSuchBucket" then 404
  else if r.code = "InternalError" then 500
  else 500

/-- The response values `encodeResponse` can receive, abstracted to what
decides the written status: whether the value is an `APIErrorResponse`. -/
inductive ResponseValue
  | apiError (r : APIErrorResponse)
  | putObject
  | deleteObject
  | listBuckets
  | listObjects
deriving DecidableEq, Repr

/-- The explicit status `encodeResponse` writes (`w.WriteHeader`), if any:
only `StatusCoder` responses get one. -/
def encodeResponseStatus : ResponseValue → Option Nat
  | .apiError r => some r.statusCode
  | _ => none

/-- Result of `encodeError` (`transport.go` lines 248-269): the explicit
status written (only the `smithy.APIError` branch calls `WriteHeader`)
and the XML error body. -/
structure ErrorEncoding where
  explicitStatus : Option Nat
  body : APIErrorResponse
deriving DecidableEq, Repr

/-- `encodeError`: a structured provider error gets HTTP 404 and its own
code/message; any other error gets no explicit status and the
`UnknownError` body. -/
def encodeError : GoError → ErrorEncoding
  | .api code message => { explicitStatus := some 404, body := ⟨code, message⟩ }
  | .plain message => { explicitStatus := none, body := ⟨"UnknownError", message⟩ }

/-- The status the client observes: the explicitly written one, or Go's
`net/http` default of 200 when none was written before the body. -/
def effectiveStatus (e : ErrorEncoding) : Nat := e.explicitStatus.getD 200

/-! ## The HeadObject endpoint (endpoint file, `MakeHeadObjectEndpoint`)

The success path dereferences `metadata.ContentType`, `metadata.ETag` and
(for `.Format`) `metadata.LastModified` with no nil check; an absent value
is a runtime panic, modelled by the `panic` constructor. -/

def pad2 (n : Nat) : String := if n < 10 then "0" ++ natToDecStr n else natToDecStr n

def pad4 (n : Nat) : String :=
  if n < 10 then "000" ++ natToDecStr n
  else if n < 100 then "00" ++ natToDecStr n
  else if n < 1000 then "0" ++ natToDecStr n
  else natToDecStr n

def weekdayName : Nat → String
  | 0 => "Sun" | 1 => "Mon" | 2 => "Tue" | 3 => "Wed" | 4 => "Thu" | 5 => "Fri" | _ => "Sat"

def monthName : Nat → String
  | 1 => "Jan" | 2 => "Feb" | 3 => "Mar" | 4 => "Apr" | 5 => "May" | 6 => "Jun"
  | 7 => "Jul" | 8 => "Aug" | 9 => "Sep" | 10 => "Oct" | 11 => "Nov" | _ => "Dec"

/-- Go's `t.Format("Mon, 02 Jan 2006 15:04:05 GMT")`: three-letter weekday,
comma, zero-padded day, month name, zero-padded year, `hh:mm:ss`, `GMT`. -/
def httpTimeFormat (t : DateTime) : String :=
  weekdayName t.weekday ++ ", " ++ pad2 t.day ++ " " ++ monthName t.month ++ " " ++
    pad4 t.year ++ " " ++ pad2 t.hour ++ ":" ++ pad2 t.minute ++ ":" ++ pad2 t.second ++ " GMT"

inductive HeadEndpointResult
  | ok (headers : List (String × String))
  | apiError (code message : String)
  | panic
deriving DecidableEq, Repr

/-- `MakeHeadObjectEndpoint`: on a service error, extract a provider
code/message when the error is a `smithy.APIError`, else use
`InternalError` with the error text; on success build the header map,
dereferencing the `ContentType`/`ETag`/`LastModified` pointers. -/
def makeHeadObjectEndpoint (svcResult : Except GoError HeadObjectOutput) :
    HeadEndpointResult :=
  match svcResult with
  | .error (.api code message) => .apiError code message
  | .error (.plain message) => .apiError "InternalError" message
  | .ok metadata =>
    match metadata.contentType, metadata.eTag, metadata.lastModified with
    | some ct, some et, some lm =>
      .ok [("Content-Length", intToDecStr metadata.contentLength),
           ("Content-Type", ct),
           ("ETag", et),
           ("Last-Modified", httpTimeFormat lm)]
    | _, _, _ => .panic

def headersLookup (hs : List (String × String)) (k : String) : Option String :=
  (hs.find? (fun p => p.1 == k)).map (·.2)

/-! ## PutObject request decoding (`transport.go` lines 105-133)

The request model carries what `decodePutObjectRequest` reads: method,
headers, the two path variables, the raw body bytes, and `r.ContentLength`.
The streaming chunked-signature reader (`newSignV4ChunkedReader`) is not
part of the repository sources available here; it is modelled from the
specification below. -/

structure HTTPRequest where
  method : String
  headers : List (String × String)
  bucketVar : String
  objectVar : String
  body : Chars
  contentLength : Int

def headerGet (r : HTTPRequest) (k : String) : String :=
  ((r.headers.find? (fun p => p.1 == k)).map (·.2)).getD ""

def streamingContentSHA256 : String := "STREAMING-AWS4-HMAC-SHA256-PAYLOAD"

/-- `isRequestSignStreamingV4`: the `x-amz-content-sha256` header equals
the streaming literal and the method is PUT. -/
def isRequestSignStreamingV4 (r : HTTPRequest) : Bool :=
  headerGet r "x-amz-content-sha256" == streamingContentSHA256 && r.method == "PUT"

/-- Go's `strconv.ParseInt(s, 10, 64)` with the error discarded, as the
decode does with `contentLength, _ = strconv.ParseInt(...)`: the parsed
value when the whole string is an optionally signed decimal numeral,
otherwise the int zero value. -/
def goParseIntOrZero (s : String) : Int :=
  match s.data with
  | [] => 0
  | c :: rest =>
    if c == '-' then
      if rest.isEmpty then 0
      else if rest.all Char.isDigit then -(digitsVal 10 (rest.map digitVal) : Int) else 0
    else if c == '+' then
      if rest.isEmpty then 0
      else if rest.all Char.isDigit then (digitsVal 10 (rest.map digitVal) : Int) else 0
    else
      if (c :: rest).all Char.isDigit then (digitsVal 10 ((c :: rest).map digitVal) : Int)
      else 0

def CRLFchars : Chars := ['\r', '\n']

/-- The literal between a chunk's size and its signature on the wire. -/
def chunkSigLit : Chars := ';' :: "chunk-signature=".data

/-- Consume input up to and including the first CRLF; fail when there is
none, or when a bare CR is not followed by LF. -/
def dropToCRLF : Chars → Option Chars
  | [] => none
  | c :: rest =>
    if c = '\r' then
      match rest with
      | '\n' :: rest2 => some rest2
      | _ => none
    else dropToCRLF rest

/-- Modelled from the spec: the streaming chunked-signature decoder
(`newSignV4ChunkedReader`, not among the available sources). The wire body
is a sequence of chunks, each introduced by a line
`<hex-chunk-size>;chunk-signature=<hex-signature>` followed by CRLF, then
exactly chunk-size payload bytes, then CRLF, until a terminating zero-size
chunk; only the concatenated payload bytes are yielded, the signature
metadata is discarded and not cryptographically checked. `fuel` bounds the
recursion; one chunk consumes at least one input character, so
`wire.length + 1` always suffices. -/
def decodeStep (deeper : Chars → Option Chars) (wire : Chars) : Option Chars :=
  if ((hexRun wire).1).isEmpty then none
  else
    match matchLit chunkSigLit (hexRun wire).2 with
    | none => none
    | some afterSig =>
      match dropToCRLF afterSig with
      | none => none
      | some body =>
        if digitsVal 16 (hexRun wire).1 = 0 then some []
        else if digitsVal 16 (hexRun wire).1 + 2 ≤ body.length then
          if (body.drop (digitsVal 16 (hexRun wire).1)).take 2 = CRLFchars then
            (deeper (body.drop (digitsVal 16 (hexRun wire).1 + 2))).map
              (fun tail => body.take (digitsVal 16 (hexRun wire).1) ++ tail)
          else none
        else none

/-- Modelled from the spec: the chunk-by-chunk recursion of the streaming
decoder, one `decodeStep` per chunk, bounded by `fuel`. -/
def decodeChunksFuel : Nat → Chars → Option Chars
  | 0, _ => none
  | fuel + 1, wire => decodeStep (decodeChunksFuel fuel) wire

/-- Modelled from the spec: the whole-body form of the streaming decoder. -/
def signV4Decode (wire : Chars) : Option Chars :=
  decodeChunksFuel (wire.length + 1) wire

/-- A sender's framing of one chunk: hex size line with signature, CRLF,
payload, CRLF. -/
def encodeChunk (sig payload : Chars) : Chars :=
  natToHexChars payload.length ++ chunkSigLit ++ sig ++ CRLFchars ++ payload ++ CRLFchars

/-- A sender's framing of a whole streaming body: the chunks in order,
terminated by a zero-size chunk. -/
def encodeStream (chunks : List (Chars × Chars)) (finalSig : Chars) : Chars :=
  match chunks with
  | [] => natToHexChars 0 ++ chunkSigLit ++ finalSig ++ CRLFchars ++ CRLFchars
  | (sig, payload) :: rest => encodeChunk sig payload ++ encodeStream rest finalSig

/-- The concatenated payload bytes of a sender's chunk list. -/
def payloadBytes (chunks : List (Chars × Chars)) : Chars :=
  (chunks.map (fun p => p.2)).flatten

/-- The decoded `PutObjectRequest` fields the transport fills. -/
structure PutObjectRequestData where
  bucketName : String
  objectKey : String
  objectBody : Chars
  contentLength : Int
deriving DecidableEq, Repr

/-- `decodePutObjectRequest`: body and length come straight from the
request unless the streaming framing is signalled, in which case the body
is unwrapped through the chunked decoder and the length is re-read from
`x-amz-decoded-content-length`. -/
def decodePutObjectRequest (r : HTTPRequest) : Option PutObjectRequestData :=
  if isRequestSignStreamingV4 r then
    match signV4Decode r.body with
    | none => none
    | some payload =>
      some ⟨r.bucketVar, r.objectVar, payload,
            goParseIntOrZero (headerGet r "x-amz-decoded-content-length")⟩
  else
    some ⟨r.bucketVar, r.objectVar, r.body, r.contentLength⟩

/-! ## Range header builders (for stating the range claims) -/

def closedRangeHeader (s e : Nat) : String :=
  "bytes=" ++ natToDecStr s ++ "-" ++ natToDecStr e

def openRangeHeader (s : Nat) : String :=
  "bytes=" ++ natToDecStr s ++ "-"

/-! ## Concrete fixtures used by witnesses -/

/-- A concrete metadata value for witnesses. -/
def sampleHead : HeadObjectOutput :=
  { contentLength := 1234
    contentType := some "text/plain"
    eTag := some "\"abc\""
    lastModified := some ⟨2015, 10, 21, 7, 28, 0, 3⟩ }

/-- A concrete cache holding both the body and the head entry for
bucket `b`, key `o`. -/
def sampleCache : Cache :=
  [(headKey "b" "o", .head sampleHead), (bodyKey "b" "o", .bytes ['x'])]

/-! ## Helper lemmas: digits, runs and literals -/

/-- The head of the input is not a decimal digit (vacuous when empty). -/
def headNotDigit : Chars → Prop
  | [] => True
  | c :: _ => c.isDigit = false

/-- The head of the input is not a hex digit (vacuous when empty). -/
def headNotHex : Chars → Prop
  | [] => True
  | c :: _ => isHexChar c = false

theorem toDigitsRevFuel_eq_digits (b : Nat) (hb : 1 < b) :
    ∀ (fuel n : Nat), n ≤ fuel → toDigitsRevFuel b fuel n = Nat.digits b n := by
  intro fuel
  induction fuel with
  | zero =>
    intro n hn
    interval_cases n
    simp [toDigitsRevFuel]
  | succ f ih =>
    intro n hn
    by_cases h0 : n = 0
    · simp [toDigitsRevFuel, h0]
    · have hdiv : n / b ≤ f := by
        have h1 : n / b < n := Nat.div_lt_self (Nat.pos_of_ne_zero h0) hb
        omega
      rw [toDigitsRevFuel, if_neg h0, ih (n / b) hdiv,
        ← Nat.digits_def' hb (Nat.pos_of_ne_zero h0)]

theorem toDigitsRev_eq_digits (b n : Nat) (hb : 1 < b) :
    toDigitsRev b n = Nat.digits b n :=
  toDigitsRevFuel_eq_digits b hb n n le_rfl

theorem decDigitChar_isDigit (d : Nat) (h : d < 10) : (decDigitChar d).isDigit = true := by
  interval_cases d <;> decide

theorem digitVal_decDigitChar (d : Nat) (h : d < 10) : digitVal (decDigitChar d) = d := by
  interval_cases d <;> decide

theorem hexDigitChar_isHex (d : Nat) (h : d < 16) : isHexChar (hexDigitChar d) = true := by
  interval_cases d <;> decide

theorem hexVal_hexDigitChar (d : Nat) (h : d < 16) : hexVal (hexDigitChar d) = d := by
  interval_cases d <;> decide

theorem digit_head_facts (c : Char) (h : c.isDigit = true) :
    (c == ' ' || c == '\t') = false ∧ (c == '-') = false ∧ (c == '+') = false := by
  have hs : c ≠ ' ' := by rintro rfl; exact absurd h (by decide)
  have ht : c ≠ '\t' := by rintro rfl; exact absurd h (by decide)
  have hm : c ≠ '-' := by rintro rfl; exact absurd h (by decide)
  have hp : c ≠ '+' := by rintro rfl; exact absurd h (by decide)
  refine ⟨?_, ?_, ?_⟩ <;> simp [hs, ht, hm, hp]

theorem natToDecChars_all_digits (n : Nat) :
    ∀ c ∈ natToDecChars n, c.isDigit = true := by
  intro c hc
  unfold natToDecChars at hc
  rw [toDigitsRev_eq_digits 10 n (by norm_num)] at hc
  by_cases h0 : n = 0
  · simp [h0] at hc
    subst hc; decide
  · simp [h0] at hc
    obtain ⟨d, hd, rfl⟩ := hc
    exact decDigitChar_isDigit d (Nat.digits_lt_base (by norm_num) hd)

theorem natToDecChars_ne_nil (n : Nat) : natToDecChars n ≠ [] := by
  unfold natToDecChars
  rw [toDigitsRev_eq_digits 10 n (by norm_num)]
  by_cases h0 : n = 0
  · simp [h0]
  · simp [h0, Nat.digits_ne_nil_iff_ne_zero.mpr h0]

theorem digitsVal_natToDecChars (n : Nat) :
    digitsVal 10 ((natToDecChars n).map digitVal) = n := by
  unfold natToDecChars digitsVal
  rw [toDigitsRev_eq_digits 10 n (by norm_num)]
  by_cases h0 : n = 0
  · simp [h0, Nat.ofDigits]
    decide
  · have hcong : ∀ d ∈ (Nat.digits 10 n).reverse, (digitVal ∘ decDigitChar) d = id d :=
      fun d hd =>
        digitVal_decDigitChar d (Nat.digits_lt_base (by norm_num) (List.mem_reverse.mp hd))
    rw [if_neg h0, List.map_map, List.map_congr_left hcong, List.map_id,
      List.reverse_reverse, Nat.ofDigits_digits]

theorem natToHexChars_all_hex (n : Nat) :
    ∀ c ∈ natToHexChars n, isHexChar c = true := by
  intro c hc
  unfold natToHexChars at hc
  rw [toDigitsRev_eq_digits 16 n (by norm_num)] at hc
  by_cases h0 : n = 0
  · simp [h0] at hc
    subst hc; decide
  · simp [h0] at hc
    obtain ⟨d, hd, rfl⟩ := hc
    exact hexDigitChar_isHex d (Nat.digits_lt_base (by norm_num) hd)

theorem natToHexChars_ne_nil (n : Nat) : natToHexChars n ≠ [] := by
  unfold natToHexChars
  rw [toDigitsRev_eq_digits 16 n (by norm_num)]
  by_cases h0 : n = 0
  · simp [h0]
  · simp [h0, Nat.digits_ne_nil_iff_ne_zero.mpr h0]

theorem digitsVal_natToHexChars (n : Nat) :
    digitsVal 16 ((natToHexChars n).map hexVal) = n := by
  unfold natToHexChars digitsVal
  rw [toDigitsRev_eq_digits 16 n (by norm_num)]
  by_cases h0 : n = 0
  · simp [h0, Nat.ofDigits]
    decide
  · have hcong : ∀ d ∈ (Nat.digits 16 n).reverse, (hexVal ∘ hexDigitChar) d = id d :=
      fun d hd =>
        hexVal_hexDigitChar d (Nat.digits_lt_base (by norm_num) (List.mem_reverse.mp hd))
    rw [if_neg h0, List.map_map, List.map_congr_left hcong, List.map_id,
      List.reverse_reverse, Nat.ofDigits_digits]

theorem decRun_append (xs ys : Chars) (h1 : ∀ c ∈ xs, c.isDigit = true)
    (h2 : headNotDigit ys) : decRun (xs ++ ys) = (xs.map digitVal, ys) := by
  induction xs with
  | nil =>
    cases ys with
    | nil => rfl
    | cons y ys' =>
      have h2' : y.isDigit = false := h2
      simp [decRun, h2']
  | cons x xs ih =>
    have hx : x.isDigit = true := h1 x (by simp)
    have ih' := ih (fun c hc => h1 c (by simp [hc]))
    simp [decRun, hx, ih']

theorem hexRun_append (xs ys : Chars) (h1 : ∀ c ∈ xs, isHexChar c = true)
    (h2 : headNotHex ys) : hexRun (xs ++ ys) = (xs.map hexVal, ys) := by
  induction xs with
  | nil =>
    cases ys with
    | nil => rfl
    | cons y ys' =>
      have h2' : isHexChar y = false := h2
      simp [hexRun, h2']
  | cons x xs ih =>
    have hx : isHexChar x = true := h1 x (by simp)
    have ih' := ih (fun c hc => h1 c (by simp [hc]))
    simp [hexRun, hx, ih']

theorem matchLit_self (xs ys : Chars) : matchLit xs (xs ++ ys) = some ys := by
  induction xs with
  | nil => rfl
  | cons x xs ih => simp [matchLit, ih]

theorem skipBlanks_of_head (c : Char) (s : Chars)
    (h : (c == ' ' || c == '\t') = false) : skipBlanks (c :: s) = c :: s := by
  simp [skipBlanks, List.dropWhile_cons, h]

theorem dropToCRLF_append (xs ys : Chars) (h : '\r' ∉ xs) :
    dropToCRLF (xs ++ '\r' :: '\n' :: ys) = some ys := by
  induction xs with
  | nil => rfl
  | cons x xs ih =>
    have hx : x ≠ '\r' := fun hc => h (hc ▸ List.mem_cons_self x xs)
    simp only [List.cons_append, dropToCRLF, if_neg hx]
    exact ih (fun hc => h (List.mem_cons_of_mem x hc))

theorem scanGoInt_dec (n : Nat) (ys : Chars) (h2 : headNotDigit ys) :
    scanGoInt (natToDecChars n ++ ys) = some ((n : Int), ys) := by
  obtain ⟨c, cs, hc⟩ : ∃ c cs, natToDecChars n = c :: cs := by
    cases h : natToDecChars n with
    | nil => exact absurd h (natToDecChars_ne_nil n)
    | cons c cs => exact ⟨c, cs, rfl⟩
  have hall : ∀ x ∈ c :: cs, x.isDigit = true := hc ▸ natToDecChars_all_digits n
  have hcd : c.isDigit = true := hall c (by simp)
  obtain ⟨hb, hm, hp⟩ := digit_head_facts c hcd
  have hrun : decRun ((c :: cs) ++ ys) = ((c :: cs).map digitVal, ys) :=
    decRun_append _ _ hall h2
  have hval : digitsVal 10 ((c :: cs).map digitVal) = n := by
    rw [← hc]; exact digitsVal_natToDecChars n
  have hred : decRun (c :: (cs ++ ys)) = (List.map digitVal (c :: cs), ys) := by
    rw [← List.cons_append]; exact hrun
  rw [hc, List.cons_append]
  unfold scanGoInt
  rw [skipBlanks_of_head c (cs ++ ys) hb]
  simp only [hm, hp, Bool.false_eq_true, if_false, hred, List.map_cons, List.isEmpty_cons]
  rw [← List.map_cons digitVal c cs, hval]

/-! ## Helper lemmas: the two range parsers on well-formed headers -/

theorem closedRangeHeader_data (s e : Nat) :
    (closedRangeHeader s e).data
      = "bytes=".data ++ (natToDecChars s ++ '-' :: natToDecChars e) := by
  have hdash : "-".data = ['-'] := rfl
  simp [closedRangeHeader, natToDecStr, String.data_append, hdash]

theorem openRangeHeader_data (s : Nat) :
    (openRangeHeader s).data = "bytes=".data ++ (natToDecChars s ++ ['-']) := by
  have hdash : "-".data = ['-'] := rfl
  simp [openRangeHeader, natToDecStr, String.data_append, hdash]

theorem closedRangeHeader_ne_empty (s e : Nat) : closedRangeHeader s e ≠ "" := by
  intro h
  have hd := closedRangeHeader_data s e
  rw [h, show ("" : String).data = [] from rfl,
    show "bytes=".data = ['b', 'y', 't', 'e', 's', '='] from rfl] at hd
  simp at hd

theorem openRangeHeader_ne_empty (s : Nat) : openRangeHeader s ≠ "" := by
  intro h
  have hd := openRangeHeader_data s
  rw [h, show ("" : String).data = [] from rfl,
    show "bytes=".data = ['b', 'y', 't', 'e', 's', '='] from rfl] at hd
  simp at hd

theorem parseContentRange_closed (s e : Nat) :
    parseContentRange (closedRangeHeader s e) = some ((s : Int), (e : Int)) := by
  have h1 : scanGoInt (natToDecChars s ++ '-' :: natToDecChars e)
      = some ((s : Int), '-' :: natToDecChars e) := scanGoInt_dec s _ rfl
  have h2 : matchLit ['-'] ('-' :: natToDecChars e) = some (natToDecChars e) := by
    have := matchLit_self ['-'] (natToDecChars e)
    simpa using this
  have h3 : scanGoInt (natToDecChars e) = some ((e : Int), []) := by
    have := scanGoInt_dec e [] True.intro
    simpa using this
  unfold parseContentRange
  rw [closedRangeHeader_data, matchLit_self]
  simp [h1, h2, h3]

theorem parceContentRangeOpen_eq (s : Nat) :
    parceContentRangeOpen (openRangeHeader s) = some (s : Int) := by
  have h1 : scanGoInt (natToDecChars s ++ ['-']) = some ((s : Int), ['-']) :=
    scanGoInt_dec s ['-'] rfl
  have h2 : matchLit ['-'] ['-'] = some [] := rfl
  unfold parceContentRangeOpen
  rw [openRangeHeader_data, matchLit_self]
  simp [h1, h2]

theorem parseContentRange_open (s : Nat) :
    parseContentRange (openRangeHeader s) = none := by
  have h1 : scanGoInt (natToDecChars s ++ ['-']) = some ((s : Int), ['-']) :=
    scanGoInt_dec s ['-'] rfl
  have h2 : matchLit ['-'] ['-'] = some [] := rfl
  have h3 : scanGoInt ([] : Chars) = none := rfl
  unfold parseContentRange
  rw [openRangeHeader_data, matchLit_self]
  simp [h1, h2, h3]

/-! ## Helper lemmas: the cache-hit range slicing on well-formed headers -/

theorem serveCached_closed (B : Chars) (s e : Nat) (hse : s ≤ e)
    (heB : e ≤ B.length) (he0 : e ≠ 0) :
    serveCachedRange B (closedRangeHeader s e) = .ok ((B.take e).drop s) := by
  unfold serveCachedRange
  rw [if_neg (closedRangeHeader_ne_empty s e), parseContentRange_closed]
  have hez : ((e : Int) = 0) = False := by
    simp [Int.natCast_eq_zero, he0]
  have hcond : (0 ≤ (s : Int) ∧ (s : Int) ≤ (e : Int) ∧ (e : Int) ≤ B.length) :=
    ⟨Int.natCast_nonneg s, by exact_mod_cast hse, by exact_mod_cast heB⟩
  unfold goSliceTo
  simp [hez, hcond, Int.toNat_natCast]

theorem serveCached_open (B : Chars) (s : Nat) (hs : s ≤ B.length) :
    serveCachedRange B (openRangeHeader s) = .ok (B.drop s) := by
  unfold serveCachedRange
  rw [if_neg (openRangeHeader_ne_empty s), parseContentRange_open, parceContentRangeOpen_eq]
  have hcond : (0 ≤ (s : Int) ∧ (s : Int) ≤ B.length) := ⟨Int.natCast_nonneg s, by exact_mod_cast hs⟩
  unfold goSliceFrom
  simp [hcond, Int.toNat_natCast]

theorem serveCached_closed_zero (B : Chars) (s : Nat) :
    serveCachedRange B (closedRangeHeader s 0) = serveCachedRange B (openRangeHeader s) := by
  unfold serveCachedRange
  rw [if_neg (closedRangeHeader_ne_empty s 0), if_neg (openRangeHeader_ne_empty s),
    parseContentRange_closed, parseContentRange_open, parceContentRangeOpen_eq]
  simp

theorem serveCached_badRange (B : Chars) (r : String) (hne : r ≠ "")
    (hc : parseContentRange r = none) (ho : parceContentRangeOpen r = none) :
    serveCachedRange B r = .err := by
  unfold serveCachedRange
  rw [if_neg hne, hc, ho]

/-! ## Helper lemmas: the capacity-aware cache-hit slicing -/

theorem serveCachedCap_open_panic (data spare : Chars) (s : Nat)
    (hs : data.length < s) :
    serveCachedRangeCap data spare (openRangeHeader s) = .panic := by
  unfold serveCachedRangeCap
  rw [if_neg (openRangeHeader_ne_empty s), parseContentRange_open, parceContentRangeOpen_eq]
  have h2 : ¬ ((s : Int) ≤ (data.length : Int)) := by
    intro h
    have : s ≤ data.length := by exact_mod_cast h
    omega
  unfold goSliceFromCap
  simp [h2]

theorem serveCachedCap_closed (data spare : Chars) (s e : Nat) (hse : s ≤ e)
    (he : e ≤ data.length + spare.length) (he0 : e ≠ 0) :
    serveCachedRangeCap data spare (closedRangeHeader s e)
      = .ok (((data ++ spare).take e).drop s) := by
  unfold serveCachedRangeCap
  rw [if_neg (closedRangeHeader_ne_empty s e), parseContentRange_closed]
  have hez : ((e : Int) = 0) = False := by
    simp [Int.natCast_eq_zero, he0]
  have hs1 : (s : Int) ≤ (e : Int) := by exact_mod_cast hse
  have hs2 : (e : Int) ≤ (data.length : Int) + (spare.length : Int) := by exact_mod_cast he
  unfold goSliceToCap
  simp [hez, hs1, hs2, List.length_append, Int.toNat_natCast]

theorem serveCachedCap_closed_panic (data spare : Chars) (s e : Nat)
    (hcap : data.length + spare.length < e) :
    serveCachedRangeCap data spare (closedRangeHeader s e) = .panic := by
  have he0 : e ≠ 0 := by omega
  unfold serveCachedRangeCap
  rw [if_neg (closedRangeHeader_ne_empty s e), parseContentRange_closed]
  have hez : ((e : Int) = 0) = False := by
    simp [Int.natCast_eq_zero, he0]
  have h3 : ¬ ((e : Int) ≤ (data.length : Int) + (spare.length : Int)) := by
    intro h
    have : e ≤ data.length + spare.length := by exact_mod_cast h
    omega
  unfold goSliceToCap
  simp [hez, h3, List.length_append]

/-! ## Helper lemmas: the cache -/

theorem cacheGet_set_self (c : Cache) (k : String) (v : CacheValue) :
    cacheGet (cacheSet c k v) k = some v := by
  simp [cacheGet, cacheSet, List.find?]

theorem cacheGet_del_self (c : Cache) (k : String) :
    cacheGet (cacheDel c k) k = none := by
  induction c with
  | nil => rfl
  | cons p t ih =>
    by_cases h : p.1 = k
    · have hneq : (p.1 != k) = false := by simp [h]
      simpa only [cacheDel, List.filter, hneq] using ih
    · have hneq : (p.1 != k) = true := by simp [h]
      have hb : (p.1 == k) = false := by simp [h]
      simp only [cacheDel, List.filter, hneq] at ih ⊢
      simp only [cacheGet, List.find?, hb] at ih ⊢
      exact ih

theorem cacheGet_del_of_ne (c : Cache) (k k' : String) (h : k' ≠ k) :
    cacheGet (cacheDel c k) k' = cacheGet c k' := by
  induction c with
  | nil => rfl
  | cons p t ih =>
    by_cases hk : p.1 = k
    · have hb : (p.1 == k') = false := by
        rw [hk]; exact beq_eq_false_iff_ne.mpr (Ne.symm h)
      have hneq : (p.1 != k) = false := by simp [hk]
      simp only [cacheDel, List.filter, hneq] at ih ⊢
      rw [ih]
      simp [cacheGet, List.find?, hb]
    · have hneq : (p.1 != k) = true := by simp [hk]
      simp only [cacheDel, List.filter, hneq] at ih ⊢
      by_cases hk' : p.1 = k'
      · simp [cacheGet, List.find?, hk']
      · have hb : (p.1 == k') = false := by simp [hk']
        simp only [cacheGet, List.find?, hb] at ih ⊢
        exact ih

theorem bodyKey_ne_headKey (bucketName objectKey : String) :
    bodyKey bucketName objectKey ≠ headKey bucketName objectKey := by
  intro h
  have hlen := congrArg String.length h
  simp only [bodyKey, headKey, String.length_append] at hlen
  have h5 : "head/".length = 5 := rfl
  have h1 : "/".length = 1 := rfl
  rw [h5, h1] at hlen
  omega

/-! ## Helper lemmas: the streaming chunked-signature framing -/

theorem encodeChunk_length_pos (sig payload : Chars) :
    1 ≤ (encodeChunk sig payload).length := by
  unfold encodeChunk
  cases hx : natToHexChars payload.length with
  | nil => exact absurd hx (natToHexChars_ne_nil payload.length)
  | cons a l =>
    simp [List.length_append]

theorem encodeStream_length (chunks : List (Chars × Chars)) (finalSig : Chars) :
    chunks.length ≤ (encodeStream chunks finalSig).length := by
  induction chunks with
  | nil => simp
  | cons p rest ih =>
    obtain ⟨sig, payload⟩ := p
    have h1 := encodeChunk_length_pos sig payload
    simp only [encodeStream, List.length_append, List.length_cons]
    omega

/-- One decoding step on one well-formed chunk header plus body. -/
theorem decodeStep_wellFormed (deeper : Chars → Option Chars) (size : Nat)
    (sig rest0 : Chars) (hsig : '\r' ∉ sig) (body : Chars)
    (hrest : rest0 = sig ++ '\r' :: '\n' :: body) :
    decodeStep deeper (natToHexChars size ++ (chunkSigLit ++ rest0))
      = if size = 0 then some []
        else if size + 2 ≤ body.length then
          if (body.drop size).take 2 = CRLFchars then
            (deeper (body.drop (size + 2))).map (fun tail => body.take size ++ tail)
          else none
        else none := by
  have hnothex : headNotHex (chunkSigLit ++ rest0) := rfl
  have hrun : hexRun (natToHexChars size ++ (chunkSigLit ++ rest0))
      = ((natToHexChars size).map hexVal, chunkSigLit ++ rest0) :=
    hexRun_append _ _ (natToHexChars_all_hex size) hnothex
  have hempty : ((natToHexChars size).map hexVal).isEmpty = false := by
    cases hx : natToHexChars size with
    | nil => exact absurd hx (natToHexChars_ne_nil size)
    | cons a l => rfl
  have hval : digitsVal 16 ((natToHexChars size).map hexVal) = size :=
    digitsVal_natToHexChars size
  have hdrop : dropToCRLF rest0 = some body := by
    rw [hrest]; exact dropToCRLF_append sig body hsig
  unfold decodeStep
  rw [hrun]
  simp only [hempty, Bool.false_eq_true, if_false, matchLit_self, hdrop, hval]

theorem decode_encodeStream (finalSig : Chars) (hfs : '\r' ∉ finalSig) :
    ∀ (chunks : List (Chars × Chars)) (fuel : Nat),
      chunks.length < fuel →
      (∀ p ∈ chunks, p.2 ≠ [] ∧ '\r' ∉ p.1) →
      decodeChunksFuel fuel (encodeStream chunks finalSig) = some (payloadBytes chunks) := by
  intro chunks
  induction chunks with
  | nil =>
    intro fuel hfuel _
    obtain ⟨f, rfl⟩ : ∃ f, fuel = f + 1 := ⟨fuel - 1, by omega⟩
    have hshape : encodeStream [] finalSig
        = natToHexChars 0 ++ (chunkSigLit ++ (finalSig ++ '\r' :: '\n' :: CRLFchars)) := by
      simp [encodeStream, CRLFchars, List.append_assoc]
    show decodeStep (decodeChunksFuel f) (encodeStream [] finalSig) = _
    rw [hshape, decodeStep_wellFormed (decodeChunksFuel f) 0 finalSig _ hfs CRLFchars rfl]
    simp [payloadBytes]
  | cons p rest ih =>
    intro fuel hfuel hchunks
    obtain ⟨sig, payload⟩ := p
    obtain ⟨f, rfl⟩ : ∃ f, fuel = f + 1 := ⟨fuel - 1, by omega⟩
    obtain ⟨hpe, hps⟩ := hchunks (sig, payload) (by simp)
    have htail := ih f (by simpa using hfuel)
      (fun q hq => hchunks q (List.mem_cons_of_mem _ hq))
    have hshape : encodeStream ((sig, payload) :: rest) finalSig
        = natToHexChars payload.length
            ++ (chunkSigLit ++ (sig ++ '\r' :: '\n'
                :: (payload ++ '\r' :: '\n' :: encodeStream rest finalSig))) := by
      simp [encodeStream, encodeChunk, CRLFchars, List.append_assoc]
    show decodeStep (decodeChunksFuel f) (encodeStream ((sig, payload) :: rest) finalSig) = _
    rw [hshape, decodeStep_wellFormed (decodeChunksFuel f) payload.length sig _ hps _ rfl]
    have hL0 : payload.length ≠ 0 := by
      cases payload with
      | nil => exact absurd rfl hpe
      | cons a l => simp
    have hlen2 : payload.length + 2
        ≤ (payload ++ '\r' :: '\n' :: encodeStream rest finalSig).length := by
      simp [List.length_append]
    have hdrop1 : (payload ++ '\r' :: '\n' :: encodeStream rest finalSig).drop payload.length
        = '\r' :: '\n' :: encodeStream rest finalSig := List.drop_left ..
    have hdrop2 : (payload ++ '\r' :: '\n' :: encodeStream rest finalSig).drop
          (payload.length + 2) = encodeStream rest finalSig := by
      rw [List.drop_append]
      rfl
    have htake : (payload ++ '\r' :: '\n' :: encodeStream rest finalSig).take payload.length
        = payload := List.take_left ..
    rw [if_neg hL0, if_pos hlen2, hdrop1]
    rw [if_pos (show ('\r' :: '\n' :: encodeStream rest finalSig).take 2 = CRLFchars from rfl)]
    rw [hdrop2, htake, htail]
    simp [payloadBytes]

theorem signV4Decode_encodeStream (chunks : List (Chars × Chars)) (finalSig : Chars)
    (hfs : '\r' ∉ finalSig) (hchunks : ∀ p ∈ chunks, p.2 ≠ [] ∧ '\r' ∉ p.1) :
    signV4Decode (encodeStream chunks finalSig) = some (payloadBytes chunks) := by
  unfold signV4Decode
  refine decode_encodeStream finalSig hfs chunks _ ?_ hchunks
  have := encodeStream_length chunks finalSig
  omega

theorem goParseIntOrZero_natToDecStr (n : Nat) :
    goParseIntOrZero (natToDecStr n) = (n : Int) := by
  obtain ⟨c, cs, hc⟩ : ∃ c cs, natToDecChars n = c :: cs := by
    cases h : natToDecChars n with
    | nil => exact absurd h (natToDecChars_ne_nil n)
    | cons c cs => exact ⟨c, cs, rfl⟩
  have hall : ∀ x ∈ c :: cs, x.isDigit = true := hc ▸ natToDecChars_all_digits n
  have hcd : c.isDigit = true := hall c (by simp)
  obtain ⟨_, hm, hp⟩ := digit_head_facts c hcd
  have hval : digitsVal 10 ((c :: cs).map digitVal) = n := by
    rw [← hc]; exact digitsVal_natToDecChars n
  have hallb : ((c :: cs).all Char.isDigit) = true := by
    rw [List.all_eq_true]; exact hall
  unfold goParseIntOrZero natToDecStr
  rw [show (String.mk (natToDecChars n)).data = natToDecChars n from rfl, hc]
  simp only [hm, hp, Bool.false_eq_true, if_false, hallb, if_true, hval]

/-! ## The claims -/

/-- C1: a `PutObject` whose body read succeeds stores the full body bytes
in the cache under `"{bucket}/{key}"`, returns success with the backing
write only recorded as a detached background task (not performed), and an
immediately subsequent `GetObject` with no range is served from the cache
with exactly those bytes. -/
theorem claim_C1 (c : Cache) (bucketName objectKey : String) (data : Chars) :
    (cachedPutObject c bucketName objectKey (.ok data)).result = none ∧
    cacheGet (cachedPutObject c bucketName objectKey (.ok data)).cache
        (bodyKey bucketName objectKey) = some (.bytes data) ∧
    (cachedPutObject c bucketName objectKey (.ok data)).backgroundWrites
        = [(bucketName, objectKey, data)] ∧
    cachedGetObject (cachedPutObject c bucketName objectKey (.ok data)).cache
        bucketName objectKey "" = .served (.ok data) := by
  refine ⟨rfl, cacheGet_set_self .., rfl, ?_⟩
  unfold cachedGetObject
  rw [show (cachedPutObject c bucketName objectKey (.ok data)).cache
      = cacheSet c (bodyKey bucketName objectKey) (.bytes data) from rfl,
    cacheGet_set_self]
  rfl

/-- C2 as written is false: a closed-form header with end `0` is not
sliced `[start:0)`; the source tests `end == 0` and serves the open form
instead, so `bytes=0-0` on a one-byte object returns the whole byte, not
the empty slice. -/
theorem claim_C2_counterexample :
    serveCachedRange ['a'] "bytes=0-0" ≠ .ok ((['a'].take 0).drop 0) ∧
    serveCachedRange ['a'] "bytes=0-0" = .ok ['a'] := by
  constructor
  · decide
  · decide

/-- C2 (amended): on a cache hit over bytes `B`, a closed-form header
`bytes=s-e` with `e ≠ 0` and in-range bounds yields `B[s:e)` (exclusive
upper bound), a closed-form header with `e = 0` is treated exactly as the
open form, an open-form header `bytes=s-` with `s` in range yields
`B[s:N)`, and a header neither parser accepts yields an error. -/
theorem claim_C2 :
    (∀ (B : Chars) (s e : Nat), s ≤ e → e ≤ B.length → e ≠ 0 →
      serveCachedRange B (closedRangeHeader s e) = .ok ((B.take e).drop s)) ∧
    (∀ (B : Chars) (s : Nat), s ≤ B.length →
      serveCachedRange B (openRangeHeader s) = .ok (B.drop s)) ∧
    (∀ (B : Chars) (s : Nat),
      serveCachedRange B (closedRangeHeader s 0) = serveCachedRange B (openRangeHeader s)) ∧
    (∀ (B : Chars) (r : String), r ≠ "" → parseContentRange r = none →
      parceContentRangeOpen r = none → serveCachedRange B r = .err) :=
  ⟨serveCached_closed, serveCached_open, serveCached_closed_zero, serveCached_badRange⟩

/-- Witness for C2: `Range: bytes=2-5` on six cached bytes returns the
slice `[2:5)`. -/
theorem claim_C2_witness :
    serveCachedRange ['a', 'b', 'c', 'd', 'e', 'f'] (closedRangeHeader 2 5)
      = .ok ['c', 'd', 'e'] := by
  have h := claim_C2.1 ['a', 'b', 'c', 'd', 'e', 'f'] 2 5 (by decide) (by decide) (by decide)
  simpa using h

/-- C3: a successful `DeleteObject` removes exactly the body cache entry
`"{bucket}/{key}"`; the head entry `"head/{bucket}/{key}"` (and every other
key) is untouched, so a subsequent `GetObject` misses the cache while a
subsequent `HeadObject` still returns previously cached metadata. -/
theorem claim_C3 (c : Cache) (bucketName objectKey : String) :
    (cachedDeleteObject none c bucketName objectKey).1 = none ∧
    cacheGet (cachedDeleteObject none c bucketName objectKey).2
        (bodyKey bucketName objectKey) = none ∧
    cacheGet (cachedDeleteObject none c bucketName objectKey).2
        (headKey bucketName objectKey)
      = cacheGet c (headKey bucketName objectKey) ∧
    (∀ k, k ≠ bodyKey bucketName objectKey →
      cacheGet (cachedDeleteObject none c bucketName objectKey).2 k = cacheGet c k) ∧
    (∀ r, cachedGetObject (cachedDeleteObject none c bucketName objectKey).2
        bucketName objectKey r = .miss) ∧
    (∀ md, cacheGet c (headKey bucketName objectKey) = some (.head md) →
      cachedHeadObject (cachedDeleteObject none c bucketName objectKey).2
        bucketName objectKey = .hit md) := by
  have hdel : (cachedDeleteObject none c bucketName objectKey).2
      = cacheDel c (bodyKey bucketName objectKey) := rfl
  refine ⟨rfl, ?_, ?_, ?_, ?_, ?_⟩
  · rw [hdel]; exact cacheGet_del_self ..
  · rw [hdel]
    exact cacheGet_del_of_ne c _ _ (Ne.symm (bodyKey_ne_headKey bucketName objectKey))
  · intro k hk
    rw [hdel]
    exact cacheGet_del_of_ne c _ k hk
  · intro r
    unfold cachedGetObject
    rw [hdel, cacheGet_del_self]
  · intro md hmd
    unfold cachedHeadObject
    rw [hdel,
      cacheGet_del_of_ne c _ _ (Ne.symm (bodyKey_ne_headKey bucketName objectKey)), hmd]

/-- Witness for C3: on a concrete cache holding both entries for
(`b`, `o`), after the delete the head metadata is still served. -/
theorem claim_C3_witness :
    cacheGet sampleCache (headKey "b" "o") = some (.head sampleHead) ∧
    cachedHeadObject (cachedDeleteObject none sampleCache "b" "o").2 "b" "o"
      = .hit sampleHead :=
  ⟨by decide, (claim_C3 sampleCache "b" "o").2.2.2.2.2 sampleHead (by decide)⟩

/-- C4: the endpoint-layer status mapping sends `NotFound`, `NoSuchKey`
and `NoSuchBucket` to HTTP 404 and `InternalError` together with every
other code to HTTP 500, and `encodeResponse` writes exactly that status
for an `APIErrorResponse`. -/
theorem claim_C4 :
    (∀ m, encodeResponseStatus (.apiError ⟨"NotFound", m⟩) = some 404) ∧
    (∀ m, encodeResponseStatus (.apiError ⟨"NoSuchKey", m⟩) = some 404) ∧
    (∀ m, encodeResponseStatus (.apiError ⟨"NoSuchBucket", m⟩) = some 404) ∧
    (∀ m, encodeResponseStatus (.apiError ⟨"InternalError", m⟩) = some 500) ∧
    (∀ code m, code ≠ "NotFound" → code ≠ "NoSuchKey" → code ≠ "NoSuchBucket" →
      encodeResponseStatus (.apiError ⟨code, m⟩) = some 500) := by
  refine ⟨fun m => rfl, fun m => rfl, fun m => rfl, fun m => rfl, ?_⟩
  intro code m h1 h2 h3
  unfold encodeResponseStatus APIErrorResponse.statusCode
  simp [h1, h2, h3]

/-- Witness for C4: an unrecognized code encodes as HTTP 500. -/
theorem claim_C4_witness :
    encodeResponseStatus (.apiError ⟨"SlowDown", "m"⟩) = some 500 :=
  claim_C4.2.2.2.2 "SlowDown" "m" (by decide) (by decide) (by decide)

/-- C5: a transport-level decode error carrying a structured provider
code/message is written with HTTP 404 regardless of the code; any other
decode error gets no explicit status, so the response defaults to
HTTP 200 even though the body is an error document. -/
theorem claim_C5 (code message : String) :
    (encodeError (.api code message)).explicitStatus = some 404 ∧
    effectiveStatus (encodeError (.api code message)) = 404 ∧
    (encodeError (.plain message)).explicitStatus = none ∧
    effectiveStatus (encodeError (.plain message)) = 200 :=
  ⟨rfl, rfl, rfl, rfl⟩

/-- C6: the domain-service `DeleteObject`, `CreateBucket` and
`DeleteBucket` return success immediately with no adapter call, for every
bucket and key; consequently the caching decorator's `DeleteObject` over
the service always observes success. -/
theorem claim_C6 (bucketName objectKey : String) (c : Cache) :
    serviceDeleteObject bucketName objectKey = (none, []) ∧
    serviceCreateBucket bucketName = (none, []) ∧
    serviceDeleteBucket bucketName = (none, []) ∧
    (cachedDeleteObject (serviceDeleteObject bucketName objectKey).1
        c bucketName objectKey).1 = none :=
  ⟨rfl, rfl, rfl, rfl⟩

/-- C7: a PUT request signalling the streaming payload literal is decoded
with its content length taken from `x-amz-decoded-content-length` (the raw
request length is ignored), and a correctly chunk-framed body of declared
decoded length `L` is unwrapped to exactly the `L` concatenated payload
bytes, whatever chunk boundaries the sender chose. -/
theorem claim_C7 (bucket object : String) (chunks : List (Chars × Chars))
    (finalSig : Chars) (L : Nat) (rawLen : Int)
    (hfs : '\r' ∉ finalSig)
    (hchunks : ∀ p ∈ chunks, p.2 ≠ [] ∧ '\r' ∉ p.1)
    (hL : (payloadBytes chunks).length = L) :
    decodePutObjectRequest
      { method := "PUT"
        headers := [("x-amz-content-sha256", streamingContentSHA256),
                    ("x-amz-decoded-content-length", natToDecStr L)]
        bucketVar := bucket
        objectVar := object
        body := encodeStream chunks finalSig
        contentLength := rawLen }
      = some ⟨bucket, object, payloadBytes chunks, (L : Int)⟩ ∧
    (payloadBytes chunks).length = L := by
  refine ⟨?_, hL⟩
  have hdec := signV4Decode_encodeStream chunks finalSig hfs hchunks
  have hstream : isRequestSignStreamingV4
      { method := "PUT"
        headers := [("x-amz-content-sha256", streamingContentSHA256),
                    ("x-amz-decoded-content-length", natToDecStr L)]
        bucketVar := bucket
        objectVar := object
        body := encodeStream chunks finalSig
        contentLength := rawLen } = true := rfl
  unfold decodePutObjectRequest
  rw [if_pos hstream, hdec]
  rw [show headerGet
      { method := "PUT"
        headers := [("x-amz-content-sha256", streamingContentSHA256),
                    ("x-amz-decoded-content-length", natToDecStr L)]
        bucketVar := bucket
        objectVar := object
        body := encodeStream chunks finalSig
        contentLength := rawLen } "x-amz-decoded-content-length" = natToDecStr L from rfl,
    goParseIntOrZero_natToDecStr]

/-- Witness for C7: two chunks `ab` + `c` of declared decoded length 3,
with a raw content length of 999, decode to the three payload bytes and
content length 3. -/
theorem claim_C7_witness :
    decodePutObjectRequest
      { method := "PUT"
        headers := [("x-amz-content-sha256", streamingContentSHA256),
                    ("x-amz-decoded-content-length", natToDecStr 3)]
        bucketVar := "b"
        objectVar := "o"
        body := encodeStream [("sig1".data, ['a', 'b']), ("s2".data, ['c'])] "f0".data
        contentLength := 999 }
      = some ⟨"b", "o", ['a', 'b', 'c'], 3⟩ := by
  have h := claim_C7 "b" "o" [("sig1".data, ['a', 'b']), ("s2".data, ['c'])] "f0".data 3 999
    (by decide) (by decide) (by decide)
  simpa [payloadBytes] using h.1

/-- C8: a successful `HeadObject` with all metadata fields present returns
the four headers: `Content-Length` as the decimal string of the length,
`Content-Type` and `ETag` verbatim, and `Last-Modified` in HTTP-date
format (witnessed concretely by the spec's example instant). -/
theorem claim_C8 (n : Int) (ct et : String) (lm : DateTime) :
    ∃ hs, makeHeadObjectEndpoint (.ok ⟨n, some ct, some et, some lm⟩) = .ok hs ∧
      headersLookup hs "Content-Length" = some (intToDecStr n) ∧
      headersLookup hs "Content-Type" = some ct ∧
      headersLookup hs "ETag" = some et ∧
      headersLookup hs "Last-Modified" = some (httpTimeFormat lm) ∧
      httpTimeFormat ⟨2015, 10, 21, 7, 28, 0, 3⟩ = "Wed, 21 Oct 2015 07:28:00 GMT" :=
  ⟨_, rfl, rfl, rfl, rfl, rfl, by decide⟩

/-- C9: the `HeadObject` endpoint's success path dereferences the
`Content-Type` and `ETag` pointers with no nil check: a backing response
omitting either field is a fatal runtime fault, not an error response. -/
theorem claim_C9 :
    makeHeadObjectEndpoint
      (.ok { contentLength := 1234, contentType := none,
             eTag := some "\"abc\"", lastModified := some ⟨2015, 10, 21, 7, 28, 0, 3⟩ })
      = .panic ∧
    makeHeadObjectEndpoint
      (.ok { contentLength := 1234, contentType := some "text/plain",
             eTag := none, lastModified := some ⟨2015, 10, 21, 7, 28, 0, 3⟩ })
      = .panic :=
  ⟨rfl, rfl⟩

set_option maxRecDepth 8192 in
/-- C10 as written is false: Go bounds `ret[start:end]` by the slice's
capacity, and the cached bytes come from `io.ReadAll`, whose buffer has
capacity at least 512; on a 3-byte object with that buffer, the
closed-form overshoots `bytes=0-5` (end beyond the length) and
`bytes=7-9` (start beyond the length) stay within capacity and return
out-of-length buffer bytes instead of faulting. -/
theorem claim_C10_counterexample :
    serveCachedRangeCap ['a', 'b', 'c'] (List.replicate 509 '\x00') "bytes=0-5" ≠ .panic ∧
    serveCachedRangeCap ['a', 'b', 'c'] (List.replicate 509 '\x00') "bytes=0-5"
      = .ok ['a', 'b', 'c', '\x00', '\x00'] ∧
    serveCachedRangeCap ['a', 'b', 'c'] (List.replicate 509 '\x00') "bytes=7-9" ≠ .panic ∧
    serveCachedRangeCap ['a', 'b', 'c'] (List.replicate 509 '\x00') "bytes=7-9"
      = .ok ['\x00', '\x00'] := by
  refine ⟨?_, ?_, ?_, ?_⟩ <;> decide

/-- C10 (amended): the cache-hit range path slices the cached bytes with
no bounds check against the object's length `N`: an open-form request
with start beyond `N` faults at runtime; a closed form whose end exceeds
`N` but stays within the ReadAll buffer's capacity does not fault and
silently serves underlying-array bytes past the object's length; a closed
form whose end exceeds the capacity faults. -/
theorem claim_C10 :
    (∀ (data spare : Chars) (s : Nat), data.length < s →
      serveCachedRangeCap data spare (openRangeHeader s) = .panic) ∧
    (∀ (data spare : Chars) (s e : Nat), s ≤ e → e ≤ data.length + spare.length →
      e ≠ 0 →
      serveCachedRangeCap data spare (closedRangeHeader s e)
        = .ok (((data ++ spare).take e).drop s)) ∧
    (∀ (data spare : Chars) (s e : Nat), data.length + spare.length < e →
      serveCachedRangeCap data spare (closedRangeHeader s e) = .panic) :=
  ⟨serveCachedCap_open_panic, serveCachedCap_closed, serveCachedCap_closed_panic⟩

set_option maxRecDepth 8192 in
/-- Witness for C10: on a 3-byte object in a 512-capacity ReadAll buffer,
`bytes=7-` faults while `bytes=0-5` serves the three object bytes plus
two out-of-length buffer bytes. -/
theorem claim_C10_witness :
    serveCachedRangeCap ['a', 'b', 'c'] (List.replicate 509 '\x00') (openRangeHeader 7)
      = .panic ∧
    serveCachedRangeCap ['a', 'b', 'c'] (List.replicate 509 '\x00') (closedRangeHeader 0 5)
      = .ok ['a', 'b', 'c', '\x00', '\x00'] := by
  constructor
  · exact claim_C10.1 ['a', 'b', 'c'] (List.replicate 509 '\x00') 7 (by decide)
  · have h := claim_C10.2.1 ['a', 'b', 'c'] (List.replicate 509 '\x00') 0 5
      (by decide) (by decide) (by decide)
    rw [h]
    decide

end S3Overlay
